import Mathlib

/-!
Verification of the CHATME real-time coordination layer against its
natural-language specification.  The client code (AppLayout.jsx, Chat.jsx,
hook.jsx, features.js) is embedded directly from the sources; server-side
components whose code is not part of the source tree (connection registry,
presence tracker, typing coordinator, redux chat reducers) are modelled from
the specification and marked as such in their doc comments.
-/

namespace Chatme

/-- An unread-alert entry of the client chat slice: a chat identifier together
with the number of unread messages recorded for that chat. -/
structure Alert where
  chatId : String
  count : Nat
deriving DecidableEq

/-- Count recorded in an alert list for a chat; the first entry for the chat
wins and a missing entry reads as zero. -/
def alertCount : List Alert → String → Nat
  | [], _ => 0
  | a :: rest, c => if a.chatId = c then a.count else alertCount rest c

/-- Modelled from the spec: the chat-slice reducer `setNewMessagesAlert`
(the client redux reducer file is not among the sources).  Per the spec,
UnreadAlert is `{chatId, count}` "incremented by the Delivery & Alert Router's
new message event", so the entry for the event's chat is incremented, with a
fresh entry starting at count 1 when none exists. -/
def setNewMessagesAlert : List Alert → String → List Alert
  | [], c => [⟨c, 1⟩]
  | a :: rest, c =>
    if a.chatId = c then ⟨a.chatId, a.count + 1⟩ :: rest
    else a :: setNewMessagesAlert rest c

/-- Modelled from the spec: the chat-slice reducer `removeNewMessagesAlert`
(the client redux reducer file is not among the sources).  Per the spec the
UnreadAlert entry is "reset to zero when the recipient later sets FocusState
true for that chat"; a removed entry reads back as zero via `alertCount`. -/
def removeNewMessagesAlert (alerts : List Alert) (c : String) : List Alert :=
  alerts.filter (fun a => a.chatId ≠ c)

/-- The NEW_MESSAGE_ALERT socket listener of AppLayout.jsx (lines 133-139):
`if (data.chatId === chatId) return;` ignores the event when the alert is for
the currently open chat (strict equality with an absent route chatId is
false), and dispatches `setNewMessagesAlert` otherwise. -/
def newMessageAlertListener (openChatId : Option String) (dataChatId : String)
    (alerts : List Alert) : List Alert :=
  if openChatId = some dataChatId then alerts
  else setNewMessagesAlert alerts dataChatId

theorem alertCount_setNewMessagesAlert (alerts : List Alert) (c : String) :
    alertCount (setNewMessagesAlert alerts c) c = alertCount alerts c + 1 := by
  induction alerts with
  | nil => simp [setNewMessagesAlert, alertCount]
  | cons a rest ih =>
    by_cases h : a.chatId = c
    · simp [setNewMessagesAlert, alertCount, h]
    · simp [setNewMessagesAlert, alertCount, h, ih]

/-- C1: a delivered new-message alert event leaves the unread-alert store
unchanged when the event's chat is the currently open chat, and increments the
unread count recorded for the event's chat when the open chat differs or no
chat is open. -/
theorem new_message_alert_suppressed_iff_focused (openChatId : Option String)
    (d : String) (alerts : List Alert) :
    (openChatId = some d → newMessageAlertListener openChatId d alerts = alerts) ∧
    (openChatId ≠ some d →
      alertCount (newMessageAlertListener openChatId d alerts) d
        = alertCount alerts d + 1) := by
  constructor
  · intro h
    simp [newMessageAlertListener, h]
  · intro h
    simp [newMessageAlertListener, h, alertCount_setNewMessagesAlert]

theorem new_message_alert_suppressed_iff_focused_witness :
    newMessageAlertListener (some "c1") "c1" [] = [] ∧
      alertCount (newMessageAlertListener none "c1" []) "c1"
        = alertCount ([] : List Alert) "c1" + 1 :=
  ⟨(new_message_alert_suppressed_iff_focused (some "c1") "c1" []).1 rfl,
   (new_message_alert_suppressed_iff_focused none "c1" []).2 (by simp)⟩

theorem removeNewMessagesAlert_cons_eq (a : Alert) (rest : List Alert)
    (c : String) (h : a.chatId = c) :
    removeNewMessagesAlert (a :: rest) c = removeNewMessagesAlert rest c := by
  simp [removeNewMessagesAlert, List.filter_cons, h]

theorem removeNewMessagesAlert_cons_ne (a : Alert) (rest : List Alert)
    (c : String) (h : ¬a.chatId = c) :
    removeNewMessagesAlert (a :: rest) c = a :: removeNewMessagesAlert rest c := by
  simp [removeNewMessagesAlert, List.filter_cons, h]

theorem alertCount_removeNewMessagesAlert (alerts : List Alert) (c c2 : String) :
    alertCount (removeNewMessagesAlert alerts c) c2
      = if c2 = c then 0 else alertCount alerts c2 := by
  induction alerts with
  | nil => simp [removeNewMessagesAlert, alertCount]
  | cons a rest ih =>
    by_cases h : a.chatId = c
    · rw [removeNewMessagesAlert_cons_eq a rest c h, ih]
      by_cases hc : c2 = c
      · simp [hc]
      · have hac2 : ¬a.chatId = c2 := by rw [h]; exact fun e => hc e.symm
        simp [hc, alertCount, hac2]
    · rw [removeNewMessagesAlert_cons_ne a rest c h]
      by_cases h2 : a.chatId = c2
      · have hc : ¬c2 = c := fun e => h (h2.trans e)
        simp [alertCount, h2, hc]
      · simp [alertCount, h2, ih]

/-- C7: joining a chat resets the unread count of that chat to zero, leaves
every other chat's count unchanged, and is idempotent.  The Chat.jsx mount
effect dispatches `removeNewMessagesAlert(chatId)` on every join. -/
theorem remove_alert_resets_only_joined_chat (alerts : List Alert) (c : String) :
    alertCount (removeNewMessagesAlert alerts c) c = 0 ∧
    (∀ c2, c2 ≠ c →
      alertCount (removeNewMessagesAlert alerts c) c2 = alertCount alerts c2) ∧
    removeNewMessagesAlert (removeNewMessagesAlert alerts c) c
      = removeNewMessagesAlert alerts c := by
  refine ⟨?_, ?_, ?_⟩
  · simp [alertCount_removeNewMessagesAlert]
  · intro c2 hne
    simp [alertCount_removeNewMessagesAlert, hne]
  · induction alerts with
    | nil => simp [removeNewMessagesAlert]
    | cons a rest ih =>
      by_cases h : a.chatId = c
      · rw [removeNewMessagesAlert_cons_eq a rest c h]
        exact ih
      · rw [removeNewMessagesAlert_cons_ne a rest c h,
            removeNewMessagesAlert_cons_ne a _ c h]
        rw [ih]

theorem remove_alert_resets_only_joined_chat_witness :
    alertCount (removeNewMessagesAlert [⟨"a", 3⟩, ⟨"b", 2⟩] "a") "a" = 0 ∧
      alertCount (removeNewMessagesAlert [⟨"a", 3⟩, ⟨"b", 2⟩] "a") "b"
        = alertCount [⟨"a", 3⟩, ⟨"b", 2⟩] "b" ∧
      removeNewMessagesAlert (removeNewMessagesAlert [⟨"a", 3⟩, ⟨"b", 2⟩] "a") "a"
        = removeNewMessagesAlert [⟨"a", 3⟩, ⟨"b", 2⟩] "a" :=
  ⟨(remove_alert_resets_only_joined_chat [⟨"a", 3⟩, ⟨"b", 2⟩] "a").1,
   (remove_alert_resets_only_joined_chat [⟨"a", 3⟩, ⟨"b", 2⟩] "a").2.1 "b" (by simp),
   (remove_alert_resets_only_joined_chat [⟨"a", 3⟩, ⟨"b", 2⟩] "a").2.2⟩

/-- A socket emission from the client: the event name together with the field
names of the payload object it carries (payload values abstracted, since the
claim under scrutiny is about which fields the event carries). -/
structure SocketEmit where
  event : String
  payloadFields : List String
deriving DecidableEq

/-- The CHAT_JOINED emission of the Chat.jsx mount effect:
`socket.emit(CHAT_JOINED, { userId: user._id, members })`. -/
def chatJoinedEmit : SocketEmit :=
  { event := "CHAT_JOINED", payloadFields := ["userId", "members"] }

/-- The CHAT_LEAVED emission of the Chat.jsx unmount cleanup:
`socket.emit(CHAT_LEAVED, { userId: user._id, members })`. -/
def chatLeavedEmit : SocketEmit :=
  { event := "CHAT_LEAVED", payloadFields := ["userId", "members"] }

/-- FocusState of the spec: whether a user is currently viewing a chat. -/
def FocusState : Type := String → String → Bool

/-- Modelled from the spec: the core's `onJoin(userId, chatId)` handler of a
CHAT_JOINED event (server socket code is not among the sources); per the spec
it "sets FocusState true" for that user and chat. -/
def onJoin (f : FocusState) (u c : String) : FocusState :=
  fun u2 c2 => if u2 = u ∧ c2 = c then true else f u2 c2

/-- C6 counterexample: the claim says every CHAT_JOINED event carries the
payload `{userId, chatId}`; on the code the payload of the emitted CHAT_JOINED
event carries no `chatId` field at all. -/
theorem chat_joined_payload_lacks_chatId :
    ¬("chatId" ∈ chatJoinedEmit.payloadFields) := by
  decide

/-- C6 amended: every CHAT_JOINED event sent from client to core carries the
payload `{userId, members}` (the viewer and the chat's member list), and its
effect is to set FocusState of the joining user to true. -/
theorem chat_joined_payload_and_effect (f : FocusState) (u c : String) :
    chatJoinedEmit.event = "CHAT_JOINED" ∧
    chatJoinedEmit.payloadFields = ["userId", "members"] ∧
    onJoin f u c u c = true := by
  refine ⟨rfl, rfl, ?_⟩
  simp [onJoin]

/-- A chat message as appended to the Chat.jsx session message list. -/
structure Message where
  content : String
  senderId : String
  senderName : String
  chat : String
  createdAt : Nat
deriving DecidableEq

/-- Local view state of the Chat.jsx component: the messages received during
the session and the typing indicator for other users. -/
structure ChatViewState where
  messages : List Message
  userTyping : Bool
deriving DecidableEq

/-- The NEW_MESSAGE listener of Chat.jsx: ignores events of other chats,
otherwise appends the received message. -/
def newMessagesListener (chatId dataChatId : String) (dataMessage : Message)
    (st : ChatViewState) : ChatViewState :=
  if dataChatId ≠ chatId then st
  else { st with messages := st.messages ++ [dataMessage] }

/-- The START_TYPING listener of Chat.jsx: ignores events of other chats,
otherwise shows the typing indicator. -/
def startTypingListener (chatId dataChatId : String)
    (st : ChatViewState) : ChatViewState :=
  if dataChatId ≠ chatId then st else { st with userTyping := true }

/-- The STOP_TYPING listener of Chat.jsx: ignores events of other chats,
otherwise hides the typing indicator. -/
def stopTypingListener (chatId dataChatId : String)
    (st : ChatViewState) : ChatViewState :=
  if dataChatId ≠ chatId then st else { st with userTyping := false }

/-- The ALERT listener of Chat.jsx: ignores events of other chats, otherwise
appends a pseudo-message attributed to the fixed Admin sender. -/
def alertListener (chatId dataChatId : String) (dataMessage : String)
    (now : Nat) (st : ChatViewState) : ChatViewState :=
  if dataChatId ≠ chatId then st
  else
    { st with
      messages := st.messages ++
        [{ content := dataMessage
           senderId := "djasdhajksdhasdsadasdas"
           senderName := "Admin"
           chat := chatId
           createdAt := now }] }

/-- C10: a NEW_MESSAGE, START_TYPING, STOP_TYPING or ALERT event whose chatId
differs from the currently open chat leaves the Chat view state (message list
and typing indicator) unchanged. -/
theorem foreign_chat_events_are_noops (chatId d : String) (m : Message)
    (alertMsg : String) (now : Nat) (st : ChatViewState) (h : d ≠ chatId) :
    newMessagesListener chatId d m st = st ∧
    startTypingListener chatId d st = st ∧
    stopTypingListener chatId d st = st ∧
    alertListener chatId d alertMsg now st = st := by
  refine ⟨?_, ?_, ?_, ?_⟩
  all_goals
    simp [newMessagesListener, startTypingListener, stopTypingListener,
      alertListener, h]

theorem foreign_chat_events_are_noops_witness :
    newMessagesListener "c1" "c2" ⟨"hi", "u1", "U", "c2", 5⟩ ⟨[], false⟩
        = ⟨[], false⟩ ∧
      startTypingListener "c1" "c2" ⟨[], false⟩ = ⟨[], false⟩ ∧
      stopTypingListener "c1" "c2" ⟨[], false⟩ = ⟨[], false⟩ ∧
      alertListener "c1" "c2" "sys" 7 ⟨[], false⟩ = ⟨[], false⟩ :=
  foreign_chat_events_are_noops "c1" "c2" ⟨"hi", "u1", "U", "c2", 5⟩ "sys" 7
    ⟨[], false⟩ (by simp)

/-- A typing-indicator socket event emitted by the client. -/
inductive TypingEmit where
  | startTyping
  | stopTyping
deriving DecidableEq

/-- Local debounce state of Chat.jsx: the IamTyping flag and the deadline of
the pending STOP_TYPING timeout, when one is scheduled. -/
structure TypingLocal where
  iamTyping : Bool
  deadline : Option Nat
deriving DecidableEq

/-- The messageOnChange keystroke handler of Chat.jsx at time `t` (ms): emits
START_TYPING when IamTyping is not yet set (and sets it), clears any pending
timeout and schedules the STOP_TYPING timeout 2000 ms ahead (the `[2000]`
delay literal coerces to the number 2000). -/
def messageOnChange (st : TypingLocal) (t : Nat) : TypingLocal × List TypingEmit :=
  (⟨true, some (t + 2000)⟩,
   if st.iamTyping then [] else [TypingEmit.startTyping])

/-- The scheduled timeout callback of messageOnChange firing: emits
STOP_TYPING and resets IamTyping. -/
def typingTimeoutFire (_st : TypingLocal) : TypingLocal × List TypingEmit :=
  (⟨false, none⟩, [TypingEmit.stopTyping])

/-- Timed trace of the Chat.jsx debounce: processes the strictly increasing
keystroke timestamps, firing the pending timeout before a keystroke whenever
its deadline has passed, and at the end of the stream. -/
def typingRun (st : TypingLocal) : List Nat → List TypingEmit
  | [] =>
    match st.deadline with
    | some _ => (typingTimeoutFire st).2
    | none => []
  | t :: rest =>
    match st.deadline with
    | some d =>
      if d ≤ t then
        let p1 := typingTimeoutFire st
        let p2 := messageOnChange p1.1 t
        p1.2 ++ p2.2 ++ typingRun p2.1 rest
      else
        let p := messageOnChange st t
        p.2 ++ typingRun p.1 rest
    | none =>
      let p := messageOnChange st t
      p.2 ++ typingRun p.1 rest

theorem typingRun_typing_within (rest : List Nat) :
    ∀ prev, List.Chain' (fun a b => a < b ∧ b < a + 2000) (prev :: rest) →
      typingRun ⟨true, some (prev + 2000)⟩ rest = [TypingEmit.stopTyping] := by
  induction rest with
  | nil => intro prev _; rfl
  | cons t r ih =>
    intro prev hchain
    have hgap : t < prev + 2000 := (List.chain'_cons.mp hchain).1.2
    have hnot : ¬prev + 2000 ≤ t := by omega
    have hrest : List.Chain' (fun a b => a < b ∧ b < a + 2000) (t :: r) :=
      (List.chain'_cons.mp hchain).2
    simp only [typingRun, hnot, if_false, messageOnChange]
    simpa using ih t hrest

/-- C2: for a sequence of keystrokes on one typing stream starting from Idle,
with every consecutive pair of keystrokes less than 2000 ms apart, exactly one
START_TYPING is emitted (at the first keystroke), the intermediate keystrokes
emit nothing (they only reset the silence timer), and after the final
2-second silence exactly one STOP_TYPING is emitted, with no further events. -/
theorem typing_debounce_emits_start_stop_once (ts : List Nat) (hne : ts ≠ [])
    (hchain : List.Chain' (fun a b => a < b ∧ b < a + 2000) ts) :
    typingRun ⟨false, none⟩ ts = [TypingEmit.startTyping, TypingEmit.stopTyping] := by
  match ts, hne with
  | t :: rest, _ =>
    simp only [typingRun, messageOnChange]
    rw [typingRun_typing_within rest t hchain]
    rfl

theorem typing_debounce_emits_start_stop_once_witness :
    typingRun ⟨false, none⟩ [0, 500, 1000]
      = [TypingEmit.startTyping, TypingEmit.stopTyping] :=
  typing_debounce_emits_start_stop_once [0, 500, 1000] (by simp)
    (by refine List.chain'_cons.mpr ⟨by omega, List.chain'_cons.mpr ⟨by omega, ?_⟩⟩
        exact List.chain'_singleton 1000)

/-- A transport-level event for one user: a connection opening or closing. -/
inductive PresenceEvent where
  | connect
  | disconnect
deriving DecidableEq

/-- Modelled from the spec: the live-connection count transition of the
Connection Registry for one user (server code is not among the sources).
Connect increments the PresenceSet count; disconnect decrements it, a late
disconnect at count zero being an idempotent no-op (DisconnectRace). -/
def stepPresence (n : Nat) : PresenceEvent → Nat
  | PresenceEvent.connect => n + 1
  | PresenceEvent.disconnect => n - 1

/-- Modelled from the spec: a user is online iff the count is positive. -/
def isOnline (n : Nat) : Bool := decide (0 < n)

/-- Modelled from the spec: the Presence Tracker broadcasts the online-user
list exactly when a registry transition changes the observable online status
of the user; this function counts the ONLINE_USERS broadcasts produced along
a sequence of connection events. -/
def presenceBroadcasts (n : Nat) : List PresenceEvent → Nat
  | [] => 0
  | e :: rest =>
    (if isOnline n ≠ isOnline (stepPresence n e) then 1 else 0) +
      presenceBroadcasts (stepPresence n e) rest

/-- C3: the presence broadcast fires exactly when the live-connection count of
a user crosses the 0-to-1 or the 1-to-0 boundary, never on an intermediate
count change; in particular the count sequence 1→2→1 produces no broadcast. -/
theorem presence_broadcast_only_on_boundary :
    (∀ (n : Nat) (e : PresenceEvent),
      isOnline n ≠ isOnline (stepPresence n e) ↔
        (n = 0 ∧ stepPresence n e = 1) ∨ (n = 1 ∧ stepPresence n e = 0)) ∧
    presenceBroadcasts 1 [PresenceEvent.connect, PresenceEvent.disconnect] = 0 := by
  constructor
  · intro n e
    cases e
    all_goals
      simp only [stepPresence, isOnline, ne_eq, decide_eq_decide]
      omega
  · rfl

/-- State of the Connection Registry: the live connections (connectionId and
its user), the PresenceSet counts, and the next fresh connectionId. -/
structure RegState where
  conns : List (Nat × String)
  presence : String → Int
  nextId : Nat

/-- Modelled from the spec: `register(userId)` of the Connection Registry
(server code is not among the sources) allocates a fresh connectionId, records
the connection and increments the user's PresenceSet count. -/
def register (st : RegState) (u : String) : RegState :=
  { conns := (st.nextId, u) :: st.conns
    presence := fun v => if v = u then st.presence v + 1 else st.presence v
    nextId := st.nextId + 1 }

/-- Removal of the first connection with a given connectionId. -/
def removeConn : List (Nat × String) → Nat → List (Nat × String)
  | [], _ => []
  | c :: rest, cid => if c.1 = cid then rest else c :: removeConn rest cid

/-- Modelled from the spec: `unregister(connectionId)` of the Connection
Registry removes the connection and decrements its user's PresenceSet count;
a connectionId that is not registered is an idempotent no-op
(DisconnectRace of the error taxonomy). -/
def unregister (st : RegState) (cid : Nat) : RegState :=
  match st.conns.find? (fun c => c.1 = cid) with
  | none => st
  | some c =>
    { conns := removeConn st.conns cid
      presence := fun v => if v = c.2 then st.presence v - 1 else st.presence v
      nextId := st.nextId }

/-- A registry operation. -/
inductive RegOp where
  | reg (u : String)
  | unreg (cid : Nat)

/-- One registry step. -/
def stepReg (st : RegState) : RegOp → RegState
  | RegOp.reg u => register st u
  | RegOp.unreg cid => unregister st cid

/-- The empty registry. -/
def initReg : RegState := ⟨[], fun _ => 0, 0⟩

/-- Running a sequence of registry operations from the empty registry. -/
def runReg (ops : List RegOp) : RegState := ops.foldl stepReg initReg

/-- The registry invariant: every PresenceSet count equals the number of live
connections of that user. -/
def RegInv (st : RegState) : Prop :=
  ∀ u, st.presence u = ((st.conns.filter (fun c => c.2 = u)).length : Int)

theorem regInv_init : RegInv initReg := by
  intro u
  simp [initReg]

theorem regInv_register (st : RegState) (u : String) (h : RegInv st) :
    RegInv (register st u) := by
  intro v
  by_cases hv : v = u
  · subst hv
    simp only [register, if_pos rfl, List.filter_cons, h v]
    simp
  · have hvu : ¬(u = v) := fun e => hv e.symm
    simp [register, hv, List.filter_cons, hvu, h v]

theorem found_conn_le_filter_length (conns : List (Nat × String)) (cid : Nat)
    (c : Nat × String) (hfind : conns.find? (fun x => x.1 = cid) = some c)
    (u : String) :
    (if c.2 = u then 1 else 0) ≤ (conns.filter (fun x => x.2 = u)).length := by
  induction conns with
  | nil => simp at hfind
  | cons a rest ih =>
    by_cases ha : a.1 = cid
    · have hac : a = c := by
        have : some a = some c := by rw [← hfind]; simp [List.find?_cons, ha]
        exact Option.some_injective _ this
      subst hac
      by_cases hu : a.2 = u
      · simp [List.filter_cons, hu]
      · simp [hu]
    · have hfind2 : rest.find? (fun x => x.1 = cid) = some c := by
        rw [← hfind]; simp [List.find?_cons, ha]
      have hle := ih hfind2
      by_cases hcu : c.2 = u
      · rw [if_pos hcu] at hle ⊢
        by_cases hu : a.2 = u
        · rw [List.filter_cons,
            if_pos (show decide (a.2 = u) = true by simpa using hu),
            List.length_cons]
          omega
        · rw [List.filter_cons,
            if_neg (show ¬decide (a.2 = u) = true by simpa using hu)]
          exact hle
      · rw [if_neg hcu]
        simp

theorem filter_length_removeConn (conns : List (Nat × String)) (cid : Nat)
    (c : Nat × String) (hfind : conns.find? (fun x => x.1 = cid) = some c)
    (u : String) :
    ((removeConn conns cid).filter (fun x => x.2 = u)).length
      = (conns.filter (fun x => x.2 = u)).length - (if c.2 = u then 1 else 0) := by
  induction conns with
  | nil => simp at hfind
  | cons a rest ih =>
    by_cases ha : a.1 = cid
    · have hac : a = c := by
        have : some a = some c := by rw [← hfind]; simp [List.find?_cons, ha]
        exact Option.some_injective _ this
      subst hac
      rw [show removeConn (a :: rest) cid = rest from by simp [removeConn, ha]]
      by_cases hu : a.2 = u
      · simp [List.filter_cons, hu]
      · simp [List.filter_cons, hu]
    · have hfind2 : rest.find? (fun x => x.1 = cid) = some c := by
        rw [← hfind]; simp [List.find?_cons, ha]
      have hbound := found_conn_le_filter_length rest cid c hfind2 u
      have hrec := ih hfind2
      rw [show removeConn (a :: rest) cid = a :: removeConn rest cid from by
        simp [removeConn, ha]]
      by_cases hcu : c.2 = u
      · rw [if_pos hcu] at hbound hrec ⊢
        by_cases hu : a.2 = u
        · rw [List.filter_cons,
            if_pos (show decide (a.2 = u) = true by simpa using hu),
            List.length_cons, List.filter_cons,
            if_pos (show decide (a.2 = u) = true by simpa using hu),
            List.length_cons]
          omega
        · rw [List.filter_cons,
            if_neg (show ¬decide (a.2 = u) = true by simpa using hu),
            List.filter_cons,
            if_neg (show ¬decide (a.2 = u) = true by simpa using hu)]
          omega
      · rw [if_neg hcu] at hrec ⊢
        by_cases hu : a.2 = u
        · rw [List.filter_cons,
            if_pos (show decide (a.2 = u) = true by simpa using hu),
            List.length_cons, List.filter_cons,
            if_pos (show decide (a.2 = u) = true by simpa using hu),
            List.length_cons]
          omega
        · rw [List.filter_cons,
            if_neg (show ¬decide (a.2 = u) = true by simpa using hu),
            List.filter_cons,
            if_neg (show ¬decide (a.2 = u) = true by simpa using hu)]
          omega

theorem regInv_unregister (st : RegState) (cid : Nat) (h : RegInv st) :
    RegInv (unregister st cid) := by
  intro u
  unfold unregister
  cases hfind : st.conns.find? (fun c => c.1 = cid) with
  | none => exact h u
  | some c =>
    dsimp only
    have hbound := found_conn_le_filter_length st.conns cid c hfind u
    rw [filter_length_removeConn st.conns cid c hfind u]
    by_cases hu : u = c.2
    · have hcu : c.2 = u := hu.symm
      rw [if_pos hu, h u, if_pos hcu]
      rw [if_pos hcu] at hbound
      push_cast [Nat.cast_sub hbound]
      ring
    · have hcu : ¬(c.2 = u) := fun e => hu e.symm
      rw [if_neg hu, h u, if_neg hcu]
      simp

theorem regInv_run_from (ops : List RegOp) :
    ∀ st, RegInv st → RegInv (ops.foldl stepReg st) := by
  induction ops with
  | nil => intro st h; exact h
  | cons op rest ih =>
    intro st h
    apply ih
    cases op with
    | reg u => exact regInv_register st u h
    | unreg cid => exact regInv_unregister st cid h

/-- C4: after any sequence of register/unregister operations, every user's
PresenceSet count equals the number of connections currently registered for
that user and not yet unregistered, and is never negative. -/
theorem presence_count_matches_connections (ops : List RegOp) (u : String) :
    (runReg ops).presence u
        = (((runReg ops).conns.filter (fun c => c.2 = u)).length : Int) ∧
    0 ≤ (runReg ops).presence u := by
  have h : RegInv (runReg ops) := regInv_run_from ops initReg regInv_init
  refine ⟨h u, ?_⟩
  rw [h u]
  exact Int.natCast_nonneg _

/-- Server-side typing-coordinator state for one (chat, user) pair. -/
structure TypingCoord where
  typing : Bool
  lastActivityAt : Nat
deriving DecidableEq

/-- An event arriving at the typing coordinator, timestamped by the
coordinator's own clock. -/
inductive CoordEvent where
  | keystroke (t : Nat)
  | stopSignal (t : Nat)
  | timeCheck (t : Nat)
deriving DecidableEq

/-- A typing relay event emitted by the coordinator to the other members. -/
inductive CoordEmit where
  | startedTyping
  | stoppedTyping
deriving DecidableEq

/-- Modelled from the spec: the Typing Coordinator step (server code is not
among the sources).  Idle→Typing on a keystroke emits "started typing";
further keystrokes only refresh the activity timestamp; an explicit stop
signal or the coordinator's own 2-second silence check (the backstop timer)
transitions Typing→Idle and emits "stopped typing". -/
def coordStep (st : TypingCoord) : CoordEvent → TypingCoord × List CoordEmit
  | CoordEvent.keystroke t =>
    if st.typing then (⟨true, t⟩, [])
    else (⟨true, t⟩, [CoordEmit.startedTyping])
  | CoordEvent.stopSignal _ =>
    if st.typing then (⟨false, st.lastActivityAt⟩, [CoordEmit.stoppedTyping])
    else (st, [])
  | CoordEvent.timeCheck t =>
    if st.typing ∧ st.lastActivityAt + 2000 ≤ t then
      (⟨false, st.lastActivityAt⟩, [CoordEmit.stoppedTyping])
    else (st, [])

/-- Running the coordinator over a sequence of events, collecting emissions. -/
def coordRun (st : TypingCoord) : List CoordEvent → TypingCoord × List CoordEmit
  | [] => (st, [])
  | e :: rest =>
    let p := coordStep st e
    let q := coordRun p.1 rest
    (q.1, p.2 ++ q.2)

/-- C5: the 2-second silence timeout is enforced by the coordinator itself:
from the Typing state with last activity at `t0`, a coordinator clock check at
any `t` at least 2000 ms later transitions the state to Idle and emits exactly
one "stopped typing", with no stop signal from the originating client ever
arriving. -/
theorem coordinator_timeout_backstop (t0 t : Nat) (h : t0 + 2000 ≤ t) :
    coordStep ⟨true, t0⟩ (CoordEvent.timeCheck t)
        = (⟨false, t0⟩, [CoordEmit.stoppedTyping]) ∧
    coordRun ⟨true, t0⟩ [CoordEvent.timeCheck t]
        = (⟨false, t0⟩, [CoordEmit.stoppedTyping]) := by
  have hstep : coordStep ⟨true, t0⟩ (CoordEvent.timeCheck t)
      = (⟨false, t0⟩, [CoordEmit.stoppedTyping]) := by
    simp [coordStep, h]
  exact ⟨hstep, by simp [coordRun, hstep]⟩

theorem coordinator_timeout_backstop_witness :
    coordStep ⟨true, 100⟩ (CoordEvent.timeCheck 2200)
        = (⟨false, 100⟩, [CoordEmit.stoppedTyping]) ∧
      coordRun ⟨true, 100⟩ [CoordEvent.timeCheck 2200]
        = (⟨false, 100⟩, [CoordEmit.stoppedTyping]) :=
  coordinator_timeout_backstop 100 2200 (by omega)

/-- The opening-brace character of JSON object syntax. -/
def lbraceC : Char := Char.ofNat 123

/-- The closing-brace character of JSON object syntax. -/
def rbraceC : Char := Char.ofNat 125

mutual

/-- A JSON-serializable value, as handled by the storage helper: null,
booleans, (integer) numbers, strings, arrays and objects.  Mutual with the
element list and the field list so that structural recursion is available. -/
inductive Json where
  | null : Json
  | bool (b : Bool) : Json
  | num (n : Int) : Json
  | str (s : List Char) : Json
  | arr (xs : JsonList) : Json
  | obj (fs : JsonFields) : Json

/-- A list of JSON array elements. -/
inductive JsonList where
  | nil : JsonList
  | cons (hd : Json) (tl : JsonList) : JsonList

/-- A list of JSON object fields (key and value). -/
inductive JsonFields where
  | nil : JsonFields
  | fcons (k : List Char) (v : Json) (tl : JsonFields) : JsonFields

end  -- mutual

/-- Serialization of one character inside a JSON string literal: quote and
backslash are escaped; other characters pass through (the \\u escapes the
host serializer applies to control characters are elided, the parser below
being its inverse on the same characters). -/
def escChar (c : Char) : List Char :=
  if c = '"' ∨ c = '\\' then ['\\', c] else [c]

/-- Serialization of the characters of a JSON string literal body. -/
def escRun : List Char → List Char
  | [] => []
  | c :: rest => escChar c ++ escRun rest

/-- The character of a decimal digit. -/
def digitChar (d : Nat) : Char := Char.ofNat (48 + d)

/-- Decimal representation of a natural number, most significant digit
first. -/
def printNat (n : Nat) : List Char :=
  if n = 0 then [digitChar 0] else (Nat.digits 10 n).reverse.map digitChar

/-- Decimal representation of an integer. -/
def printInt (n : Int) : List Char :=
  if n < 0 then '-' :: printNat n.natAbs else printNat n.natAbs

mutual

/-- Canonical JSON text of a value, as produced by the host serializer (no
whitespace). -/
def printJson : Json → List Char
  | Json.null => ['n', 'u', 'l', 'l']
  | Json.bool true => ['t', 'r', 'u', 'e']
  | Json.bool false => ['f', 'a', 'l', 's', 'e']
  | Json.num n => printInt n
  | Json.str s => '"' :: escRun s ++ ['"']
  | Json.arr JsonList.nil => ['[', ']']
  | Json.arr (JsonList.cons x xs) => '[' :: (printJson x ++ printElems xs ++ [']'])
  | Json.obj JsonFields.nil => [lbraceC, rbraceC]
  | Json.obj (JsonFields.fcons k v fs) =>
    lbraceC :: ('"' :: escRun k ++ ['"'] ++ (':' :: printJson v)
      ++ printFieldsRest fs ++ [rbraceC])

/-- JSON text of the remaining array elements, each preceded by a comma. -/
def printElems : JsonList → List Char
  | JsonList.nil => []
  | JsonList.cons x xs => ',' :: (printJson x ++ printElems xs)

/-- JSON text of the remaining object fields, each preceded by a comma. -/
def printFieldsRest : JsonFields → List Char
  | JsonFields.nil => []
  | JsonFields.fcons k v fs =>
    ',' :: ('"' :: escRun k ++ ['"'] ++ (':' :: printJson v) ++ printFieldsRest fs)

end  -- mutual

/-- Parser of a JSON string literal body up to the closing quote, undoing the
escapes of `escChar`. -/
def parseStrBody : List Char → Option (List Char × List Char)
  | [] => none
  | c :: rest =>
    if c = '"' then some ([], rest)
    else if c = '\\' then
      match rest with
      | [] => none
      | e :: rest2 =>
        match parseStrBody rest2 with
        | some (s, r) => some (e :: s, r)
        | none => none
    else
      match parseStrBody rest with
      | some (s, r) => some (c :: s, r)
      | none => none

/-- Accumulating parser of a run of decimal digits. -/
def parseDigitsAux : List Char → Nat → Nat × List Char
  | [], acc => (acc, [])
  | c :: rest, acc =>
    if c.isDigit then parseDigitsAux rest (acc * 10 + (c.toNat - 48))
    else (acc, c :: rest)

/-- Parser of a nonempty run of decimal digits. -/
def parseDigits : List Char → Option (Nat × List Char)
  | [] => none
  | c :: rest =>
    if c.isDigit then some (parseDigitsAux (c :: rest) 0) else none

/-- A character list whose head, if any, is not a decimal digit; the
separator contexts in which a JSON number can end. -/
def headNotDigit (l : List Char) : Prop :=
  ∀ c, l.head? = some c → c.isDigit = false

theorem digitChar_isDigit : ∀ d, d < 10 → (digitChar d).isDigit = true := by
  decide

theorem digitChar_val : ∀ d, d < 10 → (digitChar d).toNat - 48 = d := by
  decide

theorem parseStrBody_escRun (s : List Char) :
    ∀ rest, parseStrBody (escRun s ++ '"' :: rest) = some (s, rest) := by
  induction s with
  | nil =>
    intro rest
    rw [show escRun [] ++ '"' :: rest = '"' :: rest from by simp [escRun]]
    rw [parseStrBody.eq_def]
    simp
  | cons c cs ih =>
    intro rest
    by_cases hc : c = '"' ∨ c = '\\'
    · rw [show escRun (c :: cs) ++ '"' :: rest
          = '\\' :: c :: (escRun cs ++ '"' :: rest) from by
        simp [escRun, escChar, hc]]
      rw [parseStrBody.eq_def]
      simp only [if_neg (show ¬('\\' = '"') from by decide), if_pos rfl]
      rw [ih rest]
      simp
    · have hc1 : ¬(c = '"') := fun h => hc (Or.inl h)
      have hc2 : ¬(c = '\\') := fun h => hc (Or.inr h)
      rw [show escRun (c :: cs) ++ '"' :: rest
          = c :: (escRun cs ++ '"' :: rest) from by
        simp [escRun, escChar, hc1, hc2]]
      rw [parseStrBody.eq_def]
      simp only [if_neg hc1, if_neg hc2]
      rw [ih rest]

theorem parseDigitsAux_spec (ds : List Nat) :
    ∀ (rest : List Char) (acc : Nat), (∀ d ∈ ds, d < 10) → headNotDigit rest →
      parseDigitsAux (ds.map digitChar ++ rest) acc
        = (ds.foldl (fun a d => a * 10 + d) acc, rest) := by
  induction ds with
  | nil =>
    intro rest acc _ hrest
    cases rest with
    | nil => simp [parseDigitsAux]
    | cons c r =>
      have : c.isDigit = false := hrest c rfl
      simp [parseDigitsAux, this]
  | cons d tl ih =>
    intro rest acc hds hrest
    have hd : d < 10 := hds d (List.mem_cons_self d tl)
    rw [show (d :: tl).map digitChar ++ rest
        = digitChar d :: (tl.map digitChar ++ rest) from by simp]
    rw [parseDigitsAux, if_pos (digitChar_isDigit d hd), digitChar_val d hd]
    rw [ih rest _ (fun x hx => hds x (List.mem_cons_of_mem d hx)) hrest]
    simp [List.foldl_cons]

theorem foldl_base10 (ds : List Nat) :
    ∀ acc, List.foldl (fun a d => a * 10 + d) acc ds.reverse
      = acc * 10 ^ ds.length + Nat.ofDigits 10 ds := by
  induction ds with
  | nil => intro acc; simp [Nat.ofDigits_nil]
  | cons d tl ih =>
    intro acc
    rw [show (d :: tl).reverse = tl.reverse ++ [d] from by simp]
    rw [List.foldl_append, ih acc]
    rw [Nat.ofDigits_cons, List.length_cons, pow_succ]
    simp [List.foldl_cons]
    ring

theorem parseDigits_printNat (n : Nat) (rest : List Char)
    (hrest : headNotDigit rest) :
    parseDigits (printNat n ++ rest) = some (n, rest) := by
  by_cases hn : n = 0
  · subst hn
    rw [show printNat 0 = [digitChar 0] from by simp [printNat]]
    rw [show [digitChar 0] ++ rest = digitChar 0 :: ([].map digitChar ++ rest)
      from by simp]
    rw [parseDigits, if_pos (digitChar_isDigit 0 (by omega))]
    rw [show digitChar 0 :: (List.map digitChar [] ++ rest)
        = [0].map digitChar ++ rest from by simp]
    rw [parseDigitsAux_spec [0] rest 0 (by simp) hrest]
    simp
  · have hds : ∀ d ∈ (Nat.digits 10 n).reverse, d < 10 := by
      intro d hd
      exact Nat.digits_lt_base (by omega) (List.mem_reverse.mp hd)
    have hnil : Nat.digits 10 n ≠ [] := Nat.digits_ne_nil_iff_ne_zero.mpr hn
    rw [show printNat n = (Nat.digits 10 n).reverse.map digitChar from by
      simp [printNat, hn]]
    cases hrev : (Nat.digits 10 n).reverse with
    | nil =>
      exact absurd (by simpa using hrev) hnil
    | cons d0 dtl =>
      rw [hrev] at hds
      have hd0 : d0 < 10 := hds d0 (List.mem_cons_self _ _)
      rw [show List.map digitChar (d0 :: dtl) ++ rest
          = digitChar d0 :: (List.map digitChar dtl ++ rest) from by simp]
      rw [parseDigits, if_pos (digitChar_isDigit d0 hd0)]
      rw [show digitChar d0 :: (List.map digitChar dtl ++ rest)
          = List.map digitChar (d0 :: dtl) ++ rest from by simp]
      rw [parseDigitsAux_spec (d0 :: dtl) rest 0 hds hrest]
      rw [← hrev, foldl_base10, Nat.ofDigits_digits]
      simp

mutual

/-- Fuel-indexed parser of one canonical JSON value; the fuel only needs to
cover the nesting depth of the value. -/
def parseVal : Nat → List Char → Option (Json × List Char)
  | 0, _ => none
  | _ + 1, [] => none
  | f + 1, c :: rest =>
    if c.isDigit then
      match parseDigits (c :: rest) with
      | some (n, r) => some (Json.num (n : Int), r)
      | none => none
    else if c = '-' then
      match parseDigits rest with
      | some (n, r) => some (Json.num (-(n : Int)), r)
      | none => none
    else if c = 'n' then
      match rest with
      | 'u' :: 'l' :: 'l' :: r => some (Json.null, r)
      | _ => none
    else if c = 't' then
      match rest with
      | 'r' :: 'u' :: 'e' :: r => some (Json.bool true, r)
      | _ => none
    else if c = 'f' then
      match rest with
      | 'a' :: 'l' :: 's' :: 'e' :: r => some (Json.bool false, r)
      | _ => none
    else if c = '"' then
      match parseStrBody rest with
      | some (s, r) => some (Json.str s, r)
      | none => none
    else if c = '[' then
      if rest.head? = some ']' then some (Json.arr JsonList.nil, rest.tail)
      else
        match parseVal f rest with
        | some (x, r) =>
          match parseElems f r with
          | some (xs, r2) => some (Json.arr (JsonList.cons x xs), r2)
          | none => none
        | none => none
    else if c = lbraceC then
      if rest.head? = some rbraceC then some (Json.obj JsonFields.nil, rest.tail)
      else
        match parseField f rest with
        | some (kv, r) =>
          match parseFieldsRest f r with
          | some (fs, r2) => some (Json.obj (JsonFields.fcons kv.1 kv.2 fs), r2)
          | none => none
        | none => none
    else none

/-- Fuel-indexed parser of the array elements after the first, ended by a
closing bracket. -/
def parseElems : Nat → List Char → Option (JsonList × List Char)
  | 0, _ => none
  | f + 1, input =>
    if input.head? = some ']' then some (JsonList.nil, input.tail)
    else if input.head? = some ',' then
      match parseVal f input.tail with
      | some (x, r) =>
        match parseElems f r with
        | some (xs, r2) => some (JsonList.cons x xs, r2)
        | none => none
      | none => none
    else none

/-- Fuel-indexed parser of one object field: a quoted key, a colon and a
value. -/
def parseField : Nat → List Char → Option ((List Char × Json) × List Char)
  | 0, _ => none
  | f + 1, input =>
    match input with
    | [] => none
    | c :: rest =>
      if c = '"' then
        match parseStrBody rest with
        | some (k, r) =>
          if r.head? = some ':' then
            match parseVal f r.tail with
            | some (v, r2) => some ((k, v), r2)
            | none => none
          else none
        | none => none
      else none

/-- Fuel-indexed parser of the object fields after the first, ended by a
closing brace. -/
def parseFieldsRest : Nat → List Char → Option (JsonFields × List Char)
  | 0, _ => none
  | f + 1, input =>
    if input.head? = some rbraceC then some (JsonFields.nil, input.tail)
    else if input.head? = some ',' then
      match parseField f input.tail with
      | some (kv, r) =>
        match parseFieldsRest f r with
        | some (fs, r2) => some (JsonFields.fcons kv.1 kv.2 fs, r2)
        | none => none
      | none => none
    else none

end  -- mutual

mutual

/-- Fuel sufficient for `parseVal` on the canonical text of a value. -/
def fuelJ : Json → Nat
  | Json.null => 1
  | Json.bool _ => 1
  | Json.num _ => 1
  | Json.str _ => 1
  | Json.arr JsonList.nil => 1
  | Json.arr (JsonList.cons x xs) => 1 + max (fuelJ x) (fuelL xs)
  | Json.obj JsonFields.nil => 1
  | Json.obj (JsonFields.fcons _ v fs) => 1 + max (fuelJ v + 1) (fuelF fs)

/-- Fuel sufficient for `parseElems` on the canonical text of the elements. -/
def fuelL : JsonList → Nat
  | JsonList.nil => 1
  | JsonList.cons x xs => 1 + max (fuelJ x) (fuelL xs)

/-- Fuel sufficient for `parseFieldsRest` on the canonical text of the
fields. -/
def fuelF : JsonFields → Nat
  | JsonFields.nil => 1
  | JsonFields.fcons _ v fs => 1 + max (fuelJ v + 1) (fuelF fs)

end  -- mutual

theorem printNat_starts (n : Nat) :
    ∃ c r, printNat n = c :: r ∧ c.isDigit = true := by
  by_cases hn : n = 0
  · exact ⟨digitChar 0, [], by simp [printNat, hn], by decide⟩
  · cases hrev : (Nat.digits 10 n).reverse with
    | nil =>
      exact absurd (by simpa using hrev) (Nat.digits_ne_nil_iff_ne_zero.mpr hn)
    | cons d0 dtl =>
      have hd0 : d0 < 10 := by
        apply Nat.digits_lt_base (by omega)
        rw [← List.mem_reverse, hrev]
        exact List.mem_cons_self _ _
      refine ⟨digitChar d0, dtl.map digitChar, ?_, digitChar_isDigit d0 hd0⟩
      rw [printNat, if_neg hn, hrev]
      simp

theorem printJson_head_ne_rbrack (v : Json) (tail : List Char) :
    (printJson v ++ tail).head? = some ']' → False := by
  cases v with
  | null => intro h; simp [printJson] at h
  | bool b =>
    cases b
    all_goals intro h; simp [printJson] at h
  | num n =>
    intro h
    rw [show printJson (Json.num n) = printInt n from rfl] at h
    by_cases hn : n < 0
    · rw [printInt, if_pos hn] at h
      simp at h
    · obtain ⟨c, r, hcr, hdig⟩ := printNat_starts n.natAbs
      rw [printInt, if_neg hn, hcr] at h
      simp at h
      rw [h] at hdig
      exact absurd hdig (by decide)
  | str s => intro h; simp [printJson] at h
  | arr xs =>
    cases xs
    all_goals intro h; simp [printJson] at h
  | obj fs =>
    cases fs
    all_goals intro h; simp [printJson] at h; exact absurd h (by decide)

theorem headNotDigit_elems (xs : JsonList) (rest : List Char) :
    headNotDigit (printElems xs ++ ']' :: rest) := by
  cases xs with
  | nil =>
    intro c hc
    rw [show printElems JsonList.nil ++ ']' :: rest = ']' :: rest from by
      simp [printElems]] at hc
    simp at hc
    rw [← hc]
    decide
  | cons x xs2 =>
    intro c hc
    rw [show printElems (JsonList.cons x xs2) ++ ']' :: rest
        = ',' :: (printJson x ++ printElems xs2 ++ ']' :: rest) from by
      simp [printElems]] at hc
    simp at hc
    rw [← hc]
    decide

theorem headNotDigit_fields (fs : JsonFields) (rest : List Char) :
    headNotDigit (printFieldsRest fs ++ rbraceC :: rest) := by
  cases fs with
  | nil =>
    intro c hc
    rw [show printFieldsRest JsonFields.nil ++ rbraceC :: rest
        = rbraceC :: rest from by simp [printFieldsRest]] at hc
    simp at hc
    rw [← hc]
    decide
  | fcons k v fs2 =>
    intro c hc
    rw [show printFieldsRest (JsonFields.fcons k v fs2) ++ rbraceC :: rest
        = ',' :: ('"' :: escRun k ++ ['"'] ++ (':' :: printJson v)
            ++ printFieldsRest fs2 ++ rbraceC :: rest) from by
      simp [printFieldsRest]] at hc
    simp at hc
    rw [← hc]
    decide

theorem fuelJ_pos (v : Json) : 1 ≤ fuelJ v := by
  cases v with
  | null => simp [fuelJ]
  | bool b => simp [fuelJ]
  | num n => simp [fuelJ]
  | str s => simp [fuelJ]
  | arr xs => cases xs <;> simp [fuelJ]
  | obj fs => cases fs <;> simp [fuelJ]

theorem fuelL_pos (xs : JsonList) : 1 ≤ fuelL xs := by
  cases xs <;> simp [fuelL]

theorem fuelF_pos (fs : JsonFields) : 1 ≤ fuelF fs := by
  cases fs <;> simp [fuelF]

mutual

theorem parseVal_printJson (v : Json) : ∀ (f : Nat) (rest : List Char),
    fuelJ v ≤ f → headNotDigit rest →
    parseVal f (printJson v ++ rest) = some (v, rest) := by
  cases v with
  | null =>
    intro f rest hf _
    cases f with
    | zero => exact absurd hf (by have := fuelJ_pos Json.null; omega)
    | succ g =>
      rw [show printJson Json.null ++ rest = 'n' :: 'u' :: 'l' :: 'l' :: rest
        from by simp [printJson]]
      simp only [parseVal]
      simp
  | bool b =>
    intro f rest hf _
    cases f with
    | zero => exact absurd hf (by have := fuelJ_pos (Json.bool b); omega)
    | succ g =>
      cases b
      · rw [show printJson (Json.bool false) ++ rest
            = 'f' :: 'a' :: 'l' :: 's' :: 'e' :: rest from by simp [printJson]]
        simp only [parseVal]
        simp
      · rw [show printJson (Json.bool true) ++ rest
            = 't' :: 'r' :: 'u' :: 'e' :: rest from by simp [printJson]]
        simp only [parseVal]
        simp
  | num n =>
    intro f rest hf hrest
    cases f with
    | zero => exact absurd hf (by have := fuelJ_pos (Json.num n); omega)
    | succ g =>
      have hpd := parseDigits_printNat n.natAbs rest hrest
      obtain ⟨c, r, hcr, hdig⟩ := printNat_starts n.natAbs
      rw [hcr] at hpd
      rw [show ((c :: r) ++ rest) = c :: (r ++ rest) from by simp] at hpd
      by_cases hn : n < 0
      · rw [show printJson (Json.num n) ++ rest
            = '-' :: (printNat n.natAbs ++ rest) from by
          simp [printJson, printInt, if_pos hn]]
        rw [hcr, show ((c :: r) ++ rest) = c :: (r ++ rest) from by simp]
        simp only [parseVal, if_true]
        rw [show parseDigits (c :: (r ++ rest))
            = some (n.natAbs, rest) from hpd]
        have hval : (-(n.natAbs : Int)) = n := by omega
        show some (Json.num (-(n.natAbs : Int)), rest) = some (Json.num n, rest)
        rw [hval]
      · rw [show printJson (Json.num n) ++ rest
            = printNat n.natAbs ++ rest from by
          simp [printJson, printInt, if_neg hn]]
        rw [hcr, show ((c :: r) ++ rest) = c :: (r ++ rest) from by simp]
        simp only [parseVal]
        rw [if_pos (show c.isDigit = true from hdig)]
        rw [show parseDigits (c :: (r ++ rest))
            = some (n.natAbs, rest) from hpd]
        have hval : ((n.natAbs : Int)) = n := Int.natAbs_of_nonneg (by omega)
        show some (Json.num ((n.natAbs : Int)), rest) = some (Json.num n, rest)
        rw [hval]
  | str s =>
    intro f rest hf _
    cases f with
    | zero => exact absurd hf (by have := fuelJ_pos (Json.str s); omega)
    | succ g =>
      rw [show printJson (Json.str s) ++ rest
          = '"' :: (escRun s ++ '"' :: rest) from by simp [printJson]]
      simp only [parseVal]
      rw [parseStrBody_escRun s rest]
      simp
  | arr xs =>
    intro f rest hf hrest
    cases xs with
    | nil =>
      cases f with
      | zero =>
        exact absurd hf (by have := fuelJ_pos (Json.arr JsonList.nil); omega)
      | succ g =>
        rw [show printJson (Json.arr JsonList.nil) ++ rest
            = '[' :: ']' :: rest from by simp [printJson]]
        simp only [parseVal]
        simp
    | cons x xs2 =>
      cases f with
      | zero =>
        exact absurd hf
          (by have := fuelJ_pos (Json.arr (JsonList.cons x xs2)); omega)
      | succ g =>
        have hfx : fuelJ x ≤ g := by
          have : fuelJ (Json.arr (JsonList.cons x xs2))
              = 1 + max (fuelJ x) (fuelL xs2) := by simp [fuelJ]
          omega
        have hfxs : fuelL xs2 ≤ g := by
          have : fuelJ (Json.arr (JsonList.cons x xs2))
              = 1 + max (fuelJ x) (fuelL xs2) := by simp [fuelJ]
          omega
        have h1 := parseVal_printJson x g (printElems xs2 ++ ']' :: rest) hfx
          (headNotDigit_elems xs2 rest)
        have h2 := parseElems_printElems xs2 g rest hfxs hrest
        rw [show printJson (Json.arr (JsonList.cons x xs2)) ++ rest
            = '[' :: (printJson x ++ (printElems xs2 ++ ']' :: rest)) from by
          simp [printJson]]
        have hhead : ((printJson x ++ (printElems xs2 ++ ']' :: rest)).head?
            = some ']') = False :=
          eq_false (printJson_head_ne_rbrack x (printElems xs2 ++ ']' :: rest))
        simp only [parseVal, hhead, if_false]
        rw [h1]
        simp [h2]
  | obj fs =>
    intro f rest hf hrest
    cases fs with
    | nil =>
      cases f with
      | zero =>
        exact absurd hf (by have := fuelJ_pos (Json.obj JsonFields.nil); omega)
      | succ g =>
        rw [show printJson (Json.obj JsonFields.nil) ++ rest
            = lbraceC :: rbraceC :: rest from by simp [printJson]]
        simp only [parseVal,
            show (lbraceC.isDigit = true) = False from by decide,
            show (lbraceC = '-') = False from by decide,
            show (lbraceC = 'n') = False from by decide,
            show (lbraceC = 't') = False from by decide,
            show (lbraceC = 'f') = False from by decide,
            show (lbraceC = '"') = False from by decide,
            show (lbraceC = '[') = False from by decide,
            eq_self_iff_true, if_false, if_true]
        rw [if_pos (show (rbraceC :: rest).head? = some rbraceC from rfl)]
        rfl
    | fcons k v fs2 =>
      cases f with
      | zero =>
        exact absurd hf
          (by have := fuelJ_pos (Json.obj (JsonFields.fcons k v fs2)); omega)
      | succ g =>
        have hfuel : fuelJ (Json.obj (JsonFields.fcons k v fs2))
            = 1 + max (fuelJ v + 1) (fuelF fs2) := by simp [fuelJ]
        have hgpos : 1 ≤ g := by omega
        cases g with
        | zero => omega
        | succ h =>
          have hfv : fuelJ v ≤ h := by omega
          have hffs : fuelF fs2 ≤ h + 1 := by omega
          have hval := parseVal_printJson v h
            (printFieldsRest fs2 ++ rbraceC :: rest) hfv
            (headNotDigit_fields fs2 rest)
          have hfields := parseFieldsRest_printFieldsRest fs2 (h + 1) rest
            hffs hrest
          rw [show printJson (Json.obj (JsonFields.fcons k v fs2)) ++ rest
              = lbraceC :: ('"' :: (escRun k ++ '"' ::
                (':' :: (printJson v
                  ++ (printFieldsRest fs2 ++ rbraceC :: rest))))) from by
            simp [printJson]]
          have hfield : parseField (h + 1) ('"' :: (escRun k ++ '"' ::
                (':' :: (printJson v ++ (printFieldsRest fs2 ++ rbraceC :: rest)))))
              = some ((k, v), printFieldsRest fs2 ++ rbraceC :: rest) := by
            simp only [parseField]
            rw [parseStrBody_escRun k
              (':' :: (printJson v ++ (printFieldsRest fs2 ++ rbraceC :: rest)))]
            simp [hval]
          have hhead : (('"' :: (escRun k ++ '"' ::
                (':' :: (printJson v
                  ++ (printFieldsRest fs2 ++ rbraceC :: rest))))).head?
              = some rbraceC) = False := by
            apply eq_false
            intro hcon
            simp at hcon
            exact absurd hcon (by decide)
          simp only [parseVal,
            show (lbraceC.isDigit = true) = False from by decide,
            show (lbraceC = '-') = False from by decide,
            show (lbraceC = 'n') = False from by decide,
            show (lbraceC = 't') = False from by decide,
            show (lbraceC = 'f') = False from by decide,
            show (lbraceC = '"') = False from by decide,
            show (lbraceC = '[') = False from by decide,
            eq_self_iff_true, if_false, if_true]
          simp only [hhead, if_false]
          rw [hfield]
          simp [hfields]

theorem parseElems_printElems (xs : JsonList) : ∀ (f : Nat) (rest : List Char),
    fuelL xs ≤ f → headNotDigit rest →
    parseElems f (printElems xs ++ ']' :: rest) = some (xs, rest) := by
  cases xs with
  | nil =>
    intro f rest hf _
    cases f with
    | zero => exact absurd hf (by have := fuelL_pos JsonList.nil; omega)
    | succ g =>
      rw [show printElems JsonList.nil ++ ']' :: rest = ']' :: rest from by
        simp [printElems]]
      simp only [parseElems]
      simp
  | cons x xs2 =>
    intro f rest hf hrest
    cases f with
    | zero =>
      exact absurd hf (by have := fuelL_pos (JsonList.cons x xs2); omega)
    | succ g =>
      have hfuel : fuelL (JsonList.cons x xs2)
          = 1 + max (fuelJ x) (fuelL xs2) := by simp [fuelL]
      have hfx : fuelJ x ≤ g := by omega
      have hfxs : fuelL xs2 ≤ g := by omega
      have h1 := parseVal_printJson x g (printElems xs2 ++ ']' :: rest) hfx
        (headNotDigit_elems xs2 rest)
      have h2 := parseElems_printElems xs2 g rest hfxs hrest
      rw [show printElems (JsonList.cons x xs2) ++ ']' :: rest
          = ',' :: (printJson x ++ (printElems xs2 ++ ']' :: rest)) from by
        simp [printElems]]
      simp only [parseElems]
      rw [if_neg (show ¬((',' :: (printJson x
            ++ (printElems xs2 ++ ']' :: rest))).head? = some ']') from by
        simp)]
      rw [if_pos (show ((',' :: (printJson x
            ++ (printElems xs2 ++ ']' :: rest))).head? = some ',') from by
        simp)]
      rw [show (',' :: (printJson x ++ (printElems xs2 ++ ']' :: rest))).tail
          = printJson x ++ (printElems xs2 ++ ']' :: rest) from rfl]
      rw [h1]
      simp [h2]

theorem parseFieldsRest_printFieldsRest (fs : JsonFields) :
    ∀ (f : Nat) (rest : List Char),
    fuelF fs ≤ f → headNotDigit rest →
    parseFieldsRest f (printFieldsRest fs ++ rbraceC :: rest) = some (fs, rest) := by
  cases fs with
  | nil =>
    intro f rest hf _
    cases f with
    | zero => exact absurd hf (by have := fuelF_pos JsonFields.nil; omega)
    | succ g =>
      rw [show printFieldsRest JsonFields.nil ++ rbraceC :: rest
          = rbraceC :: rest from by simp [printFieldsRest]]
      simp only [parseFieldsRest]
      simp
  | fcons k v fs2 =>
    intro f rest hf hrest
    cases f with
    | zero =>
      exact absurd hf (by have := fuelF_pos (JsonFields.fcons k v fs2); omega)
    | succ g =>
      have hfuel : fuelF (JsonFields.fcons k v fs2)
          = 1 + max (fuelJ v + 1) (fuelF fs2) := by simp [fuelF]
      obtain ⟨h, hgh⟩ : ∃ h, g = h + 1 := ⟨g - 1, by omega⟩
      have hfv : fuelJ v ≤ h := by omega
      have hffs : fuelF fs2 ≤ g := by omega
      have hval := parseVal_printJson v h
        (printFieldsRest fs2 ++ rbraceC :: rest) hfv
        (headNotDigit_fields fs2 rest)
      have hfields := parseFieldsRest_printFieldsRest fs2 g rest hffs hrest
      rw [show printFieldsRest (JsonFields.fcons k v fs2) ++ rbraceC :: rest
          = ',' :: ('"' :: (escRun k ++ '"' ::
            (':' :: (printJson v
              ++ (printFieldsRest fs2 ++ rbraceC :: rest))))) from by
        simp [printFieldsRest]]
      have hfield : parseField g ('"' :: (escRun k ++ '"' ::
            (':' :: (printJson v ++ (printFieldsRest fs2 ++ rbraceC :: rest)))))
          = some ((k, v), printFieldsRest fs2 ++ rbraceC :: rest) := by
        rw [hgh]
        simp only [parseField]
        rw [parseStrBody_escRun k
          (':' :: (printJson v ++ (printFieldsRest fs2 ++ rbraceC :: rest)))]
        simp [hval]
      simp only [parseFieldsRest]
      rw [if_neg (show ¬((',' :: ('"' :: (escRun k ++ '"' ::
            (':' :: (printJson v ++ (printFieldsRest fs2 ++ rbraceC :: rest)))))).head?
          = some rbraceC) from by
        simp
        decide)]
      rw [if_pos (show ((',' :: ('"' :: (escRun k ++ '"' ::
            (':' :: (printJson v ++ (printFieldsRest fs2 ++ rbraceC :: rest)))))).head?
          = some ',') from by simp)]
      rw [show (',' :: ('"' :: (escRun k ++ '"' ::
            (':' :: (printJson v ++ (printFieldsRest fs2 ++ rbraceC :: rest)))))).tail
          = '"' :: (escRun k ++ '"' ::
            (':' :: (printJson v ++ (printFieldsRest fs2 ++ rbraceC :: rest))))
        from rfl]
      rw [hfield]
      simp only [hfields]

end  -- mutual

theorem printNat_length_pos (n : Nat) : 1 ≤ (printNat n).length := by
  obtain ⟨c, r, hcr, _⟩ := printNat_starts n
  rw [hcr]
  simp

theorem printInt_length_pos (n : Int) : 1 ≤ (printInt n).length := by
  rw [printInt]
  by_cases hn : n < 0
  · simp [hn]
  · simp [hn]
    exact printNat_length_pos n.natAbs

mutual

theorem fuelJ_le_printJson (v : Json) : fuelJ v ≤ (printJson v).length := by
  cases v with
  | null => simp [fuelJ, printJson]
  | bool b => cases b <;> simp [fuelJ, printJson]
  | num n =>
    have := printInt_length_pos n
    simp only [fuelJ, printJson]
    omega
  | str s => simp [fuelJ, printJson]
  | arr xs =>
    cases xs with
    | nil => simp [fuelJ, printJson]
    | cons x xs2 =>
      have h1 := fuelJ_le_printJson x
      have h2 := fuelL_le_printElems xs2
      have hp1 : 1 ≤ (printJson x).length := printJson_length_pos x
      simp only [fuelJ, printJson, List.length_cons, List.length_append]
      omega
  | obj fs =>
    cases fs with
    | nil => simp [fuelJ, printJson]
    | fcons k v2 fs2 =>
      have h1 := fuelJ_le_printJson v2
      have h2 := fuelF_le_printFieldsRest fs2
      simp only [fuelJ, printJson, List.length_cons, List.length_append]
      omega

theorem fuelL_le_printElems (xs : JsonList) :
    fuelL xs ≤ (printElems xs).length + 1 := by
  cases xs with
  | nil => simp [fuelL, printElems]
  | cons x xs2 =>
    have h1 := fuelJ_le_printJson x
    have h2 := fuelL_le_printElems xs2
    have hp1 : 1 ≤ (printJson x).length := printJson_length_pos x
    simp only [fuelL, printElems, List.length_cons, List.length_append]
    omega

theorem fuelF_le_printFieldsRest (fs : JsonFields) :
    fuelF fs ≤ (printFieldsRest fs).length + 1 := by
  cases fs with
  | nil => simp [fuelF, printFieldsRest]
  | fcons k v2 fs2 =>
    have h1 := fuelJ_le_printJson v2
    have h2 := fuelF_le_printFieldsRest fs2
    simp only [fuelF, printFieldsRest, List.length_cons, List.length_append]
    omega

theorem printJson_length_pos (v : Json) : 1 ≤ (printJson v).length := by
  cases v with
  | null => simp [printJson]
  | bool b => cases b <;> simp [printJson]
  | num n =>
    simp only [printJson]
    exact printInt_length_pos n
  | str s => simp [printJson]
  | arr xs => cases xs <;> simp [printJson]
  | obj fs => cases fs <;> simp [printJson]

end  -- mutual

/-- Parser of a full canonical JSON text: the fuel is derived from the input
length, which bounds the nesting depth. -/
def jsonParse (input : List Char) : Option Json :=
  match parseVal (input.length + 1) input with
  | some (v, []) => some v
  | _ => none

/-- Printing a JSON value and parsing the text back returns the value: the
round trip of the host JSON serializer and parser as exercised by
getOrSaveFromStorage. -/
theorem jsonParse_printJson (v : Json) : jsonParse (printJson v) = some v := by
  have hfuel : fuelJ v ≤ (printJson v).length + 1 := by
    have := fuelJ_le_printJson v
    omega
  have h : parseVal ((printJson v).length + 1) (printJson v) = some (v, []) := by
    have h2 := parseVal_printJson v ((printJson v).length + 1) [] hfuel
      (by intro c hc; simp at hc)
    simpa using h2
  simp [jsonParse, h]

/-- The browser localStorage: a mapping from keys to stored strings. -/
def Storage : Type := String → Option (List Char)

/-- localStorage.setItem. -/
def setItem (s : Storage) (k : String) (v : List Char) : Storage :=
  fun k2 => if k2 = k then some v else s k2

/-- localStorage.getItem. -/
def getItem (s : Storage) (k : String) : Option (List Char) := s k

/-- The storage helper getOrSaveFromStorage of features.js: when `get` is
true, returns JSON.parse of the stored string when one is present and truthy
(a nonempty string), and null (none) otherwise; when `get` is false, stores
JSON.stringify(value) under the key.  JSON.stringify/JSON.parse of the host
are modelled by `printJson`/`jsonParse`. -/
def getOrSaveFromStorage (s : Storage) (key : String) (value : Json)
    (get : Bool) : Option Json × Storage :=
  if get then
    (match getItem s key with
     | some text => if text.length ≠ 0 then jsonParse text else none
     | none => none,
     s)
  else (none, setItem s key (printJson value))

/-- Modelled from the spec: the NEW_MESSAGE_ALERT event name used as the
storage key (the events constants file is not among the sources). -/
def NEW_MESSAGE_ALERT : String := "NEW_MESSAGE_ALERT"

/-- A JsonList from a list of values. -/
def listToJsonList : List Json → JsonList
  | [] => JsonList.nil
  | x :: xs => JsonList.cons x (listToJsonList xs)

/-- The JSON object of one unread-alert entry. -/
def alertToJson (a : Alert) : Json :=
  Json.obj (JsonFields.fcons "chatId".data (Json.str a.chatId.data)
    (JsonFields.fcons "count".data (Json.num a.count) JsonFields.nil))

/-- The JSON array of the full unread-alert list. -/
def alertsToJson (alerts : List Alert) : Json :=
  Json.arr (listToJsonList (alerts.map alertToJson))

/-- The AppLayout.jsx persistence effect: on every change of newMessagesAlert
it calls getOrSaveFromStorage with the NEW_MESSAGE_ALERT key and the full
alert list, with no `get` flag, taking the save branch. -/
def persistAlertsEffect (s : Storage) (alerts : List Alert) : Storage :=
  (getOrSaveFromStorage s NEW_MESSAGE_ALERT (alertsToJson alerts) false).2

/-- C9: the persistence effect saves the serialized full alert list under the
NEW_MESSAGE_ALERT key, and for every JSON-serializable value, saving it with
getOrSaveFromStorage and reading it back with get=true returns the same
value. -/
theorem alerts_persist_and_roundtrip (s : Storage) (alerts : List Alert)
    (key : String) (v : Json) :
    getItem (persistAlertsEffect s alerts) NEW_MESSAGE_ALERT
        = some (printJson (alertsToJson alerts)) ∧
    (getOrSaveFromStorage ((getOrSaveFromStorage s key v false).2) key v true).1
        = some v := by
  constructor
  · simp [persistAlertsEffect, getOrSaveFromStorage, setItem, getItem]
  · have hlen : 1 ≤ (printJson v).length := printJson_length_pos v
    simp [getOrSaveFromStorage, setItem, getItem]
    constructor
    · intro hnil
      rw [hnil] at hlen
      simp at hlen
    · exact jsonParse_printJson v

/-- The listener table of a socket: the currently registered (event, handler)
pairs in registration order; handlers are drawn from an arbitrary type with
decidable identity. -/
abbrev SocketListeners (H : Type) : Type := List (String × H)

/-- The effect of `socket.on(event, handler)`: appends the listener. -/
def socketOn {H : Type} (s : SocketListeners H) (e : String) (h : H) :
    SocketListeners H :=
  s ++ [(e, h)]

/-- The effect of `socket.off(event, handler)`: removes one registration of
exactly that (event, handler) pair. -/
def socketOff {H : Type} [DecidableEq H] (s : SocketListeners H) (e : String)
    (h : H) : SocketListeners H :=
  s.erase (e, h)

/-- The setup phase of useSocketEvents (hook.jsx): `socket.on` for every
(event, handler) entry of the handlers map, in entry order. -/
def registerAll {H : Type} (handlers : List (String × H))
    (s : SocketListeners H) : SocketListeners H :=
  handlers.foldl (fun acc eh => socketOn acc eh.1 eh.2) s

/-- The cleanup phase of useSocketEvents (hook.jsx): `socket.off` for every
(event, handler) entry of the same handlers map, in entry order. -/
def unregisterAll {H : Type} [DecidableEq H] (handlers : List (String × H))
    (s : SocketListeners H) : SocketListeners H :=
  handlers.foldl (fun acc eh => socketOff acc eh.1 eh.2) s

theorem registerAll_eq_append {H : Type} (handlers : List (String × H)) :
    ∀ s, registerAll handlers s = s ++ handlers := by
  induction handlers with
  | nil => intro s; simp [registerAll]
  | cons eh rest ih =>
    intro s
    have : registerAll (eh :: rest) s = registerAll rest (socketOn s eh.1 eh.2) := rfl
    rw [this, ih, socketOn]
    simp

theorem count_unregisterAll {H : Type} [DecidableEq H]
    (handlers : List (String × H)) :
    ∀ (s : SocketListeners H) (p : String × H),
      (unregisterAll handlers s).count p = s.count p - handlers.count p := by
  induction handlers with
  | nil => intro s p; simp [unregisterAll]
  | cons eh rest ih =>
    intro s p
    have hstep : unregisterAll (eh :: rest) s
        = unregisterAll rest (socketOff s eh.1 eh.2) := rfl
    rw [hstep, ih, socketOff]
    rw [List.count_erase]
    rw [List.count_cons]
    by_cases hp : p = eh
    · simp [hp]
      omega
    · simp [hp, Prod.mk.eta]
      omega

/-- C8: the teardown of useSocketEvents is exactly symmetric with its setup:
unregistering every (event, handler) pair that the setup registered restores
the socket's listener table, every pair occurring afterwards exactly as often
as before the setup. -/
theorem socket_teardown_symmetric {H : Type} [DecidableEq H]
    (handlers : List (String × H)) (s : SocketListeners H) (p : String × H) :
    (unregisterAll handlers (registerAll handlers s)).count p = s.count p := by
  rw [registerAll_eq_append, count_unregisterAll, List.count_append]
  omega

end Chatme
